import Mathlib

/-!
Verification of the tui-widget-list viewport/selection layout engine.

The repository ships the `Listable` item trait (src/src/traits.rs) and three
example programs; the layout engine itself (`List`, `ListState`, the viewport
layout pass) is described by the specification (spec.md §3, §4.2, §4.3) and is
modelled here from that description.  Machine integers (`usize`) are modelled
as `Nat`; heights are row counts.
-/

set_option autoImplicit false

/-- Modelled from the spec (§3 ViewportGeometry): one geometry entry
`(item_index, top_offset, visible_rows, clipped_top, clipped_bottom)`. -/
structure Entry where
  index : Nat
  top_offset : Nat
  visible_rows : Nat
  clipped_top : Bool
  clipped_bottom : Bool
deriving Repr, DecidableEq

/-- Modelled from the spec (§3 SelectionState): selected index (`none` when
nothing is selected), anchor item index and the rows of the anchor item hidden
above the viewport top (`anchor_skip`). -/
structure ListState where
  selected : Option Nat
  anchor : Nat
  skip : Nat
deriving Repr, DecidableEq

/-- Height of the item at index `i`; indices past the end of the height list
read as 0 (they never arise for well-formed states). -/
def hAt (hs : List Nat) (i : Nat) : Nat := hs.getD i 0

/-- Sum of the heights of the items with indices in `[a, b)`. -/
def sumRange (hs : List Nat) (a b : Nat) : Nat := ((hs.drop a).take (b - a)).sum

/-- Modelled from the spec (§4.3 phase 2, forward packing): starting at item
`idx` with `skip` rows of it hidden above the viewport top, emit geometry
entries until the viewport rows are used up or items are exhausted.  Each item
consumes `min remaining (height - skip)` rows; `clipped_top` is set only on the
anchor item when `skip > 0`, `clipped_bottom` when the item's remaining height
did not fit. -/
def packAux : List Nat → Nat → Nat → Nat → Nat → List Entry
  | [], _, _, _, _ => []
  | h :: rest, idx, skip, top, remaining =>
    if remaining = 0 then []
    else
      let vis := min remaining (h - skip)
      { index := idx, top_offset := top, visible_rows := vis,
        clipped_top := decide (0 < skip),
        clipped_bottom := decide (remaining < h - skip) }
        :: packAux rest (idx + 1) 0 (top + vis) (remaining - vis)

/-- Modelled from the spec (§4.3 phase 1): smallest anchor `a ≤ s` from which
the items `a..s` all fit in the viewport, i.e. the smallest scroll-down that
keeps the selected item `s` fully visible; `s` itself when even `s` alone does
not fit (top-aligned best effort).  `fuel` counts the candidates left to try. -/
def minAnchorAux (hs : List Nat) (v s : Nat) : Nat → Nat → Nat
  | _, 0 => s
  | a, fuel + 1 =>
    if sumRange hs a (s + 1) ≤ v then a else minAnchorAux hs v s (a + 1) fuel

def minAnchorFor (hs : List Nat) (v s : Nat) : Nat :=
  minAnchorAux hs v s 0 (s + 1)

/-- Modelled from the spec (§4.3 phase 1, anchor repair): `selected = none`
leaves the anchor unchanged; a selected item before the anchor becomes the new
anchor with `anchor_skip = 0` (scroll up to reveal); a selected item that is
not fully visible by forward packing from the current anchor moves the anchor
forward by the smallest amount that makes it fully visible, top-aligning it
when it is taller than the viewport.  §4.3's words "at least partially visible"
are in tension with the §4.2 guarantee and the §8 testable property (full
containment whenever the item fits), and §9 flags the §4.3 step-1 rule as an
inferred assumption; the repair is modelled with the guaranteed full-visibility
behaviour. -/
def repair (hs : List Nat) (v : Nat) (sel : Option Nat) (a k : Nat) : Nat × Nat :=
  match sel with
  | none => (a, k)
  | some s =>
    if s < a then (s, 0)
    else if (s ≠ a ∨ k = 0) ∧ sumRange hs a (s + 1) ≤ v + k then (a, k)
    else (minAnchorFor hs v s, 0)

/-- Modelled from the spec (§4.3): the state persisted after a layout pass,
the repaired anchor with the selection untouched. -/
def repairSt (hs : List Nat) (v : Nat) (st : ListState) : ListState :=
  { st with
    anchor := (repair hs v st.selected st.anchor st.skip).1,
    skip := (repair hs v st.selected st.anchor st.skip).2 }

/-- Modelled from the spec (§4.3, §4.4): one layout pass over the item heights
`hs` with viewport height `v`: anchor repair followed by forward packing;
returns the geometry together with the updated state. -/
def render (hs : List Nat) (v : Nat) (st : ListState) : List Entry × ListState :=
  (packAux (hs.drop (repairSt hs v st).anchor) (repairSt hs v st).anchor
      (repairSt hs v st).skip 0 v,
   repairSt hs v st)

/-- Total visible rows of a geometry. -/
def sumVis (g : List Entry) : Nat := (g.map Entry.visible_rows).sum

/-- The entries' `top_offset`s are contiguous starting at `t`: each entry's
`top_offset` equals the previous entry's `top_offset` plus the previous
entry's `visible_rows`. -/
def contiguousFrom : Nat → List Entry → Prop
  | _, [] => True
  | t, e :: rest => e.top_offset = t ∧ contiguousFrom (t + e.visible_rows) rest

theorem sumVis_packAux_le (l : List Nat) :
    ∀ idx skip top remaining, sumVis (packAux l idx skip top remaining) ≤ remaining := by
  induction l with
  | nil => intro idx skip top remaining; simp [packAux, sumVis]
  | cons h t ih =>
    intro idx skip top remaining
    by_cases hr : remaining = 0
    · simp [packAux, hr, sumVis]
    · have hm : min remaining (h - skip) ≤ remaining := Nat.min_le_left _ _
      have := ih (idx + 1) 0 (top + min remaining (h - skip))
        (remaining - min remaining (h - skip))
      simp only [packAux, hr, if_false, sumVis, List.map_cons, List.sum_cons]
      simp only [sumVis] at this
      omega

theorem contiguousFrom_packAux (l : List Nat) :
    ∀ idx skip top remaining, contiguousFrom top (packAux l idx skip top remaining) := by
  induction l with
  | nil => intro idx skip top remaining; simp [packAux, contiguousFrom]
  | cons h t ih =>
    intro idx skip top remaining
    by_cases hr : remaining = 0
    · simp [packAux, hr, contiguousFrom]
    · simp only [packAux, hr, if_false, contiguousFrom]
      exact ⟨by trivial, ih _ _ _ _⟩

/-- C1: for every ViewportGeometry produced by `render`, the visible rows sum
to at most the viewport height and the `top_offset`s are contiguous starting
at 0 (each entry's `top_offset` is the previous entry's `top_offset` plus its
`visible_rows`; zero-height entries occupy zero rows and do not advance it). -/
theorem C1_geometry_invariant (hs : List Nat) (v : Nat) (st : ListState) :
    sumVis (render hs v st).1 ≤ v ∧ contiguousFrom 0 (render hs v st).1 :=
  ⟨sumVis_packAux_le _ _ _ _ _, contiguousFrom_packAux _ _ _ _ _⟩

theorem sumRange_add (hs : List Nat) (a b c : Nat) (hab : a ≤ b) (hbc : b ≤ c) :
    sumRange hs a c = sumRange hs a b + sumRange hs b c := by
  unfold sumRange
  have h1 : c - a = (b - a) + (c - b) := by omega
  rw [h1, List.take_add, List.sum_append, List.drop_drop]
  have h2 : a + (b - a) = b := by omega
  rw [h2]

theorem sumRange_single (hs : List Nat) (s : Nat) : sumRange hs s (s + 1) = hAt hs s := by
  by_cases h : s < hs.length
  · unfold sumRange
    rw [List.drop_eq_getElem_cons h]
    have h1 : s + 1 - s = 1 := by omega
    rw [h1, List.take_succ_cons, List.take_zero]
    simp [hAt, List.getD_eq_getElem?_getD, List.getElem?_eq_getElem h]
  · have hle : hs.length ≤ s := by omega
    unfold sumRange
    rw [List.drop_eq_nil_of_le hle]
    simp [hAt, List.getD_eq_getElem?_getD, List.getElem?_eq_none hle]

theorem sumRange_succ_right (hs : List Nat) (a s : Nat) (has : a ≤ s) :
    sumRange hs a (s + 1) = sumRange hs a s + hAt hs s := by
  rw [sumRange_add hs a s (s + 1) has (Nat.le_succ s), sumRange_single]

theorem sumRange_le_of_le (hs : List Nat) (a b c : Nat) (hab : a ≤ b) :
    sumRange hs b c ≤ sumRange hs a c := by
  by_cases hbc : b ≤ c
  · rw [sumRange_add hs a b c hab hbc]; omega
  · have h0 : c - b = 0 := by omega
    simp [sumRange, h0]

theorem hAt_le_sumRange (hs : List Nat) (a s : Nat) (has : a ≤ s) :
    hAt hs s ≤ sumRange hs a (s + 1) := by
  have h1 := sumRange_le_of_le hs a s (s + 1) has
  rw [sumRange_single] at h1
  exact h1

theorem getD_drop (hs : List Nat) (a j : Nat) :
    (hs.drop a).getD j 0 = hAt hs (a + j) := by
  rw [List.getD_eq_getElem?_getD, List.getElem?_drop, hAt, List.getD_eq_getElem?_getD]

theorem drop_eq_hAt_cons (hs : List Nat) (s : Nat) (h : s < hs.length) :
    hs.drop s = hAt hs s :: hs.drop (s + 1) := by
  rw [List.drop_eq_getElem_cons h, hAt, List.getD_eq_getElem hs 0 h]

theorem minAnchorAux_spec (hs : List Nat) (v s : Nat) (fuel : Nat) :
    ∀ a, a + fuel = s + 1 →
      minAnchorAux hs v s a fuel ≤ s
      ∧ (sumRange hs (minAnchorAux hs v s a fuel) (s + 1) ≤ v ∨ minAnchorAux hs v s a fuel = s)
      ∧ (∀ b, a ≤ b → b < minAnchorAux hs v s a fuel → ¬ sumRange hs b (s + 1) ≤ v) := by
  induction fuel with
  | zero =>
    intro a ha
    have he : minAnchorAux hs v s a 0 = s := rfl
    rw [he]
    exact ⟨Nat.le_refl s, Or.inr rfl, fun b hb1 hb2 _ => by omega⟩
  | succ fuel ih =>
    intro a ha
    have hstep : minAnchorAux hs v s a (fuel + 1) =
        if sumRange hs a (s + 1) ≤ v then a else minAnchorAux hs v s (a + 1) fuel := rfl
    by_cases hfit : sumRange hs a (s + 1) ≤ v
    · have he : minAnchorAux hs v s a (fuel + 1) = a := by rw [hstep, if_pos hfit]
      rw [he]
      exact ⟨by omega, Or.inl hfit, fun b hb1 hb2 _ => by omega⟩
    · have he : minAnchorAux hs v s a (fuel + 1) = minAnchorAux hs v s (a + 1) fuel := by
        rw [hstep, if_neg hfit]
      rw [he]
      obtain ⟨h1, h2, h3⟩ := ih (a + 1) (by omega)
      refine ⟨h1, h2, fun b hb1 hb2 => ?_⟩
      rcases Nat.eq_or_lt_of_le hb1 with heq | hlt
      · rw [← heq]; exact hfit
      · exact h3 b hlt hb2

theorem minAnchorFor_le (hs : List Nat) (v s : Nat) : minAnchorFor hs v s ≤ s :=
  (minAnchorAux_spec hs v s (s + 1) 0 (by omega)).1

theorem minAnchorFor_fits_or_eq (hs : List Nat) (v s : Nat) :
    sumRange hs (minAnchorFor hs v s) (s + 1) ≤ v ∨ minAnchorFor hs v s = s :=
  (minAnchorAux_spec hs v s (s + 1) 0 (by omega)).2.1

theorem minAnchorFor_min (hs : List Nat) (v s : Nat) :
    ∀ b, b < minAnchorFor hs v s → ¬ sumRange hs b (s + 1) ≤ v :=
  fun b hb => (minAnchorAux_spec hs v s (s + 1) 0 (by omega)).2.2 b (Nat.zero_le b) hb

theorem minAnchorFor_eq_self (hs : List Nat) (v s : Nat)
    (h : ¬ sumRange hs s (s + 1) ≤ v) : minAnchorFor hs v s = s := by
  rcases minAnchorFor_fits_or_eq hs v s with h1 | h1
  · exact absurd
      (Nat.le_trans (sumRange_le_of_le hs (minAnchorFor hs v s) s (s + 1) (minAnchorFor_le hs v s)) h1)
      h
  · exact h1

theorem minAnchorFor_fits_of_sel_fits (hs : List Nat) (v s : Nat) (h : hAt hs s ≤ v) :
    sumRange hs (minAnchorFor hs v s) (s + 1) ≤ v := by
  rcases minAnchorFor_fits_or_eq hs v s with h1 | h1
  · exact h1
  · rw [h1, sumRange_single]; exact h

theorem repair_some (hs : List Nat) (v s a k : Nat) :
    repair hs v (some s) a k =
      if s < a then (s, 0)
      else if (s ≠ a ∨ k = 0) ∧ sumRange hs a (s + 1) ≤ v + k then (a, k)
      else (minAnchorFor hs v s, 0) := rfl

theorem repair_skip_zero (hs : List Nat) (v : Nat) (sel : Option Nat) (a : Nat) :
    (repair hs v sel a 0).2 = 0 := by
  cases sel with
  | none => rfl
  | some s =>
    rw [repair_some]
    split_ifs <;> rfl

theorem repair_keeps_visible (hs : List Nat) (v s a : Nat) (hfit : hAt hs s ≤ v) :
    (repair hs v (some s) a 0).1 ≤ s ∧ sumRange hs (repair hs v (some s) a 0).1 (s + 1) ≤ v := by
  rw [repair_some]
  split_ifs with h1 h2
  · exact ⟨Nat.le_refl s, by rw [show ((s, 0) : Nat × Nat).1 = s from rfl, sumRange_single]; exact hfit⟩
  · refine ⟨show a ≤ s by omega, ?_⟩
    show sumRange hs a (s + 1) ≤ v
    have h3 := h2.2
    omega
  · exact ⟨minAnchorFor_le hs v s, minAnchorFor_fits_of_sel_fits hs v s hfit⟩

theorem repair_tall (hs : List Nat) (v s a : Nat) (h : v < hAt hs s) :
    repair hs v (some s) a 0 = (s, 0) := by
  rw [repair_some]
  split_ifs with h1 h2
  · rfl
  · exfalso
    have ha : a ≤ s := by omega
    have h3 := hAt_le_sumRange hs a s ha
    have h4 := h2.2
    omega
  · rw [minAnchorFor_eq_self hs v s (by rw [sumRange_single]; omega)]

theorem repair_idem (hs : List Nat) (v : Nat) (sel : Option Nat) (a k : Nat) :
    repair hs v sel (repair hs v sel a k).1 (repair hs v sel a k).2 = repair hs v sel a k := by
  cases sel with
  | none => rfl
  | some s =>
    by_cases h1 : s < a
    · have he : repair hs v (some s) a k = (s, 0) := by
        rw [repair_some, if_pos h1]
      rw [he]
      show repair hs v (some s) s 0 = (s, 0)
      by_cases h2 : sumRange hs s (s + 1) ≤ v
      · rw [repair_some, if_neg (by omega),
          if_pos (⟨Or.inr rfl, by omega⟩ : (s ≠ s ∨ 0 = 0) ∧ sumRange hs s (s + 1) ≤ v + 0)]
      · rw [repair_some, if_neg (by omega),
          if_neg (fun hc : (s ≠ s ∨ 0 = 0) ∧ sumRange hs s (s + 1) ≤ v + 0 =>
            h2 (by have := hc.2; omega)),
          minAnchorFor_eq_self hs v s h2]
    · by_cases h2 : (s ≠ a ∨ k = 0) ∧ sumRange hs a (s + 1) ≤ v + k
      · have he : repair hs v (some s) a k = (a, k) := by
          rw [repair_some, if_neg h1, if_pos h2]
        rw [he]
        exact he
      · have he : repair hs v (some s) a k = (minAnchorFor hs v s, 0) := by
          rw [repair_some, if_neg h1, if_neg h2]
        rw [he]
        show repair hs v (some s) (minAnchorFor hs v s) 0 = (minAnchorFor hs v s, 0)
        have hr : minAnchorFor hs v s ≤ s := minAnchorFor_le hs v s
        by_cases h3 : sumRange hs (minAnchorFor hs v s) (s + 1) ≤ v
        · rw [repair_some, if_neg (by omega),
            if_pos (⟨Or.inr rfl, by omega⟩ :
              (s ≠ minAnchorFor hs v s ∨ 0 = 0)
              ∧ sumRange hs (minAnchorFor hs v s) (s + 1) ≤ v + 0)]
        · rw [repair_some, if_neg (by omega),
            if_neg (fun hc : (s ≠ minAnchorFor hs v s ∨ 0 = 0)
                ∧ sumRange hs (minAnchorFor hs v s) (s + 1) ≤ v + 0 =>
              h3 (by have := hc.2; omega))]

/-- C7: `render` is idempotent and deterministic: a second layout pass on the
state produced by a first pass, with no intervening navigation or item change,
produces the identical geometry (and identical state) — the layout is a pure
function of heights, selection, anchor and viewport height. -/
theorem C7_idempotent (hs : List Nat) (v : Nat) (st : ListState) :
    render hs v (render hs v st).2 = render hs v st := by
  cases st with
  | mk sel a k =>
    simp only [render, repairSt]
    rw [repair_idem]

/-- Modelled from the spec (§4.2 `select_next`): on an empty list a no-op,
otherwise advances `selected` to `min (selected + 1) (item_count - 1)`,
clamping at the last item.  The spec leaves `select_next` on a non-empty list
with no current selection unspecified; it is modelled as selecting index 0. -/
def select_next (n : Nat) (st : ListState) : ListState :=
  if n = 0 then st
  else
    match st.selected with
    | none => { st with selected := some 0 }
    | some i => { st with selected := some (min (i + 1) (n - 1)) }

/-- Modelled from the spec (§4.2 `select_previous`): symmetric to
`select_next`, clamping at index 0 (`Nat` subtraction clamps `i - 1` at 0). -/
def select_previous (n : Nat) (st : ListState) : ListState :=
  if n = 0 then st
  else
    match st.selected with
    | none => { st with selected := some 0 }
    | some i => { st with selected := some (i - 1) }

/-- Modelled from the spec (§7): the OutOfRange error of `select`. -/
inductive SelectError where
  | outOfRange
deriving Repr, DecidableEq

/-- Modelled from the spec (§4.2 `select`): sets `selected` to `i` when
`i < item_count`, otherwise rejects the operation with OutOfRange. -/
def select (n i : Nat) (st : ListState) : Except SelectError ListState :=
  if i < n then Except.ok { st with selected := some i }
  else Except.error SelectError.outOfRange

/-- A single `select_next`/`select_previous` step. -/
inductive Move where
  | fwd
  | bwd
deriving Repr, DecidableEq

def applyMove (n : Nat) (m : Move) (st : ListState) : ListState :=
  match m with
  | Move.fwd => select_next n st
  | Move.bwd => select_previous n st

def applyMoves (n : Nat) (ms : List Move) (st : ListState) : ListState :=
  ms.foldl (fun acc m => applyMove n m acc) st

/-- Any navigation call of the external interface (§6): `next()`,
`previous()`, or `select(i)` (which keeps the state on an OutOfRange error). -/
inductive NavCall where
  | fwd
  | bwd
  | jump (i : Nat)
deriving Repr, DecidableEq

def applyNav (n : Nat) (c : NavCall) (st : ListState) : ListState :=
  match c with
  | NavCall.fwd => select_next n st
  | NavCall.bwd => select_previous n st
  | NavCall.jump i => ((select n i st).toOption).getD st

/-- The selection, when present, is inside `[0, n)`. -/
def selOk (n : Nat) (st : ListState) : Bool :=
  match st.selected with
  | none => true
  | some i => decide (i < n)

theorem selOk_of_some (n : Nat) (st : ListState) (i : Nat)
    (h : selOk n st = true) (hsel : st.selected = some i) : i < n := by
  unfold selOk at h
  rw [hsel] at h
  exact of_decide_eq_true h

theorem selOk_next (n : Nat) (st : ListState) (h : selOk n st = true) :
    selOk n (select_next n st) = true := by
  unfold select_next
  by_cases hn : n = 0
  · rw [if_pos hn]; exact h
  · rw [if_neg hn]
    cases hsel : st.selected with
    | none => simp [selOk]; omega
    | some i => simp [selOk]; omega

theorem selOk_prev (n : Nat) (st : ListState) (h : selOk n st = true) :
    selOk n (select_previous n st) = true := by
  unfold select_previous
  by_cases hn : n = 0
  · rw [if_pos hn]; exact h
  · rw [if_neg hn]
    cases hsel : st.selected with
    | none => simp [selOk]; omega
    | some i =>
      have := selOk_of_some n st i h hsel
      simp [selOk]; omega

theorem selOk_applyNav (n : Nat) (c : NavCall) (st : ListState)
    (h : selOk n st = true) : selOk n (applyNav n c st) = true := by
  cases c with
  | fwd => exact selOk_next n st h
  | bwd => exact selOk_prev n st h
  | jump i =>
    by_cases hi : i < n
    · simp [applyNav, select, hi, selOk, Except.toOption]
    · simp [applyNav, select, hi, Except.toOption]
      exact h

theorem applyNav_anchor (n : Nat) (c : NavCall) (st : ListState) :
    (applyNav n c st).anchor = st.anchor ∧ (applyNav n c st).skip = st.skip := by
  cases c with
  | fwd =>
    show (select_next n st).anchor = st.anchor ∧ (select_next n st).skip = st.skip
    unfold select_next
    split_ifs with h
    · exact ⟨rfl, rfl⟩
    · cases hsel : st.selected <;> exact ⟨rfl, rfl⟩
  | bwd =>
    show (select_previous n st).anchor = st.anchor ∧ (select_previous n st).skip = st.skip
    unfold select_previous
    split_ifs with h
    · exact ⟨rfl, rfl⟩
    · cases hsel : st.selected <;> exact ⟨rfl, rfl⟩
  | jump i =>
    by_cases hi : i < n
    · simp [applyNav, select, hi, Except.toOption]
    · simp [applyNav, select, hi, Except.toOption]

theorem selOk_applyMoves (n : Nat) (ms : List Move) :
    ∀ st, selOk n st = true → selOk n (applyMoves n ms st) = true := by
  induction ms with
  | nil => intro st h; exact h
  | cons m rest ih =>
    intro st h
    have hstep : selOk n (applyMove n m st) = true := by
      cases m with
      | fwd => exact selOk_next n st h
      | bwd => exact selOk_prev n st h
    exact ih (applyMove n m st) hstep

/-- C3: `select_next`/`select_previous` clamp: on an empty list both are
no-ops; on a non-empty list `select_next` sets `selected` to
`min (selected + 1) (item_count - 1)` and `select_previous` to `selected - 1`
(clamped at 0), each moving the selection by at most one; and over every
sequence of such calls the selection stays inside `[0, item_count)`. -/
theorem C3_navigation (n : Nat) (st : ListState) :
    (n = 0 → select_next n st = st ∧ select_previous n st = st)
    ∧ (∀ i, i < n → st.selected = some i →
        (select_next n st).selected = some (min (i + 1) (n - 1))
        ∧ (select_previous n st).selected = some (i - 1)
        ∧ Nat.dist i (min (i + 1) (n - 1)) ≤ 1
        ∧ Nat.dist i (i - 1) ≤ 1)
    ∧ (∀ ms, selOk n st = true → selOk n (applyMoves n ms st) = true) := by
  refine ⟨?_, ?_, fun ms h => selOk_applyMoves n ms st h⟩
  · intro hn
    constructor
    · unfold select_next; rw [if_pos hn]
    · unfold select_previous; rw [if_pos hn]
  · intro i hn hsel
    refine ⟨?_, ?_, ?_, ?_⟩
    · unfold select_next
      rw [if_neg (by omega), hsel]
    · unfold select_previous
      rw [if_neg (by omega), hsel]
    · simp [Nat.dist]; omega
    · simp [Nat.dist]; omega

theorem C3_navigation_witness :
    (select_next 3 { selected := some 1, anchor := 0, skip := 0 }).selected = some 2
    ∧ (select_previous 3 { selected := some 1, anchor := 0, skip := 0 }).selected = some 0
    ∧ selOk 3 (applyMoves 3 [Move.fwd, Move.fwd, Move.fwd, Move.bwd]
        { selected := some 1, anchor := 0, skip := 0 }) = true :=
  ⟨((C3_navigation 3 { selected := some 1, anchor := 0, skip := 0 }).2.1 1
      (by decide) rfl).1,
   ((C3_navigation 3 { selected := some 1, anchor := 0, skip := 0 }).2.1 1
      (by decide) rfl).2.1,
   (C3_navigation 3 { selected := some 1, anchor := 0, skip := 0 }).2.2
      [Move.fwd, Move.fwd, Move.fwd, Move.bwd] (by decide)⟩

/-- C6: `select i` succeeds, setting `selected := i`, exactly when
`i < item_count`; otherwise it is rejected with OutOfRange and — as done by
`applyNav` — the state is left unchanged (atomicity on error). -/
theorem C6_select (n i : Nat) (st : ListState) :
    (i < n → select n i st = Except.ok { st with selected := some i })
    ∧ (¬ i < n →
        select n i st = Except.error SelectError.outOfRange
        ∧ applyNav n (NavCall.jump i) st = st) := by
  constructor
  · intro hi
    unfold select
    rw [if_pos hi]
  · intro hi
    have he : select n i st = Except.error SelectError.outOfRange := by
      unfold select
      rw [if_neg hi]
    refine ⟨he, ?_⟩
    show ((select n i st).toOption).getD st = st
    rw [he]
    rfl

theorem C6_select_witness :
    select 3 1 { selected := none, anchor := 0, skip := 0 }
      = Except.ok { selected := some 1, anchor := 0, skip := 0 }
    ∧ select 3 7 { selected := none, anchor := 0, skip := 0 }
      = Except.error SelectError.outOfRange
    ∧ applyNav 3 (NavCall.jump 7) { selected := none, anchor := 0, skip := 0 }
      = { selected := none, anchor := 0, skip := 0 } :=
  ⟨(C6_select 3 1 { selected := none, anchor := 0, skip := 0 }).1 (by decide),
   ((C6_select 3 7 { selected := none, anchor := 0, skip := 0 }).2 (by decide)).1,
   ((C6_select 3 7 { selected := none, anchor := 0, skip := 0 }).2 (by decide)).2⟩

theorem packAux_viewport_zero (l : List Nat) (idx sk top : Nat) :
    packAux l idx sk top 0 = [] := by
  cases l with
  | nil => rfl
  | cons h t => rfl

/-- C8: layout is total on the degenerate inputs: an empty item list renders
to an empty geometry with the state (anchor included) unchanged, and a
zero-height viewport renders any item list to an empty geometry. -/
theorem C8_degenerate (v : Nat) (st : ListState) (hs : List Nat) :
    (render [] v st).1 = []
    ∧ (st.selected = none → (render [] v st).2 = st)
    ∧ (render hs 0 st).1 = [] := by
  refine ⟨?_, ?_, ?_⟩
  · show packAux (([] : List Nat).drop (repairSt [] v st).anchor) _ _ 0 v = []
    rw [List.drop_nil]
    rfl
  · intro hnone
    show repairSt [] v st = st
    cases st with
    | mk sel a k =>
      have hsel : sel = none := hnone
      subst hsel
      rfl
  · show packAux (hs.drop (repairSt hs 0 st).anchor) _ _ 0 0 = []
    exact packAux_viewport_zero _ _ _ _

theorem C8_degenerate_witness :
    (render [] 7 { selected := none, anchor := 0, skip := 0 }).1 = []
    ∧ (render [] 7 { selected := none, anchor := 0, skip := 0 }).2
      = { selected := none, anchor := 0, skip := 0 }
    ∧ (render [3, 1, 4] 0 { selected := some 1, anchor := 0, skip := 0 }).1 = [] :=
  ⟨(C8_degenerate 7 { selected := none, anchor := 0, skip := 0 } [3, 1, 4]).1,
   (C8_degenerate 7 { selected := none, anchor := 0, skip := 0 } [3, 1, 4]).2.1 rfl,
   (C8_degenerate 0 { selected := some 1, anchor := 0, skip := 0 } [3, 1, 4]).2.2⟩

theorem packAux_cons (h : Nat) (t : List Nat) (idx sk top remaining : Nat) :
    packAux (h :: t) idx sk top remaining =
      if remaining = 0 then []
      else
        { index := idx, top_offset := top, visible_rows := min remaining (h - sk),
          clipped_top := decide (0 < sk),
          clipped_bottom := decide (remaining < h - sk) }
          :: packAux t (idx + 1) 0 (top + min remaining (h - sk))
            (remaining - min remaining (h - sk)) := rfl

theorem packAux_mem_full (l : List Nat) :
    ∀ k idx top remaining (e : Entry), k < l.length →
      (l.take k).sum + l.getD k 0 ≤ remaining → 0 < l.getD k 0 →
      e.index = idx + k → e.top_offset = top + (l.take k).sum →
      e.visible_rows = l.getD k 0 → e.clipped_top = false → e.clipped_bottom = false →
      e ∈ packAux l idx 0 top remaining := by
  induction l with
  | nil => intro k _ _ _ _ hk; exact absurd hk (by simp)
  | cons h t ih =>
    intro k idx top remaining e hk hfit hpos hei het hev hect hecb
    match k with
    | 0 =>
      simp only [List.take_zero, List.sum_nil, List.getD_cons_zero] at hfit hpos hev het
      have hr : remaining ≠ 0 := by omega
      have hle : h ≤ remaining := by omega
      show e ∈ packAux (h :: t) idx 0 top remaining
      have hpack : packAux (h :: t) idx 0 top remaining =
          { index := idx, top_offset := top, visible_rows := min remaining (h - 0),
            clipped_top := decide (0 < 0),
            clipped_bottom := decide (remaining < h - 0) }
            :: packAux t (idx + 1) 0 (top + min remaining (h - 0))
              (remaining - min remaining (h - 0)) := by
        rw [packAux_cons, if_neg hr]
      rw [hpack]
      apply List.mem_cons.2
      left
      have hmin : min remaining (h - 0) = h := by omega
      have hnb : ¬ remaining < h - 0 := by omega
      cases e with
      | mk ei et ev ect ecb =>
        simp only [Entry.mk.injEq]
        refine ⟨by simpa using hei, by simpa using het, ?_, by simpa using hect, ?_⟩
        · rw [hmin]; exact hev
        · rw [decide_eq_false hnb]; exact hecb
    | k' + 1 =>
      simp only [List.take_succ_cons, List.sum_cons, List.getD_cons_succ]
        at hfit het hev hpos
      have hr : remaining ≠ 0 := by omega
      have hle : h ≤ remaining := by omega
      show e ∈ packAux (h :: t) idx 0 top remaining
      have hpack : packAux (h :: t) idx 0 top remaining =
          { index := idx, top_offset := top, visible_rows := min remaining (h - 0),
            clipped_top := decide (0 < 0),
            clipped_bottom := decide (remaining < h - 0) }
            :: packAux t (idx + 1) 0 (top + min remaining (h - 0))
              (remaining - min remaining (h - 0)) := by
        rw [packAux_cons, if_neg hr]
      rw [hpack]
      apply List.mem_cons.2
      right
      have hmin : min remaining (h - 0) = h := by omega
      rw [hmin]
      exact ih k' (idx + 1) (top + h) (remaining - h) e (by simpa using hk)
        (by omega) hpos (by omega) (by omega) hev hect hecb

theorem render_shows_selected_fit (hs : List Nat) (v : Nat) (st : ListState)
    (hskip : st.skip = 0) (s : Nat) (hsel : st.selected = some s) (hlen : s < hs.length)
    (h1 : 1 ≤ hAt hs s) (h2 : hAt hs s ≤ v) :
    ∃ e ∈ (render hs v st).1,
      e.index = s ∧ e.clipped_top = false ∧ e.clipped_bottom = false
      ∧ e.visible_rows = hAt hs s := by
  have hrk := repair_keeps_visible hs v s st.anchor h2
  have hanch : (repairSt hs v st).anchor = (repair hs v (some s) st.anchor 0).1 := by
    simp [repairSt, hsel, hskip]
  have hsk2 : (repairSt hs v st).skip = 0 := by
    simp [repairSt, hsel, hskip, repair_skip_zero]
  have hg : (render hs v st).1 =
      packAux (hs.drop (repair hs v (some s) st.anchor 0).1)
        (repair hs v (some s) st.anchor 0).1 0 0 v := by
    show packAux (hs.drop (repairSt hs v st).anchor) (repairSt hs v st).anchor
        (repairSt hs v st).skip 0 v = _
    rw [hanch, hsk2]
  have has : (repair hs v (some s) st.anchor 0).1 ≤ s := hrk.1
  have hsum : sumRange hs (repair hs v (some s) st.anchor 0).1 (s + 1) ≤ v := hrk.2
  have hsucc := sumRange_succ_right hs (repair hs v (some s) st.anchor 0).1 s has
  have hgd : (hs.drop (repair hs v (some s) st.anchor 0).1).getD
      (s - (repair hs v (some s) st.anchor 0).1) 0 = hAt hs s := by
    rw [getD_drop]
    congr 1
    omega
  refine ⟨{ index := s, top_offset := sumRange hs (repair hs v (some s) st.anchor 0).1 s,
            visible_rows := hAt hs s, clipped_top := false, clipped_bottom := false },
          ?_, rfl, rfl, rfl, rfl⟩
  rw [hg]
  refine packAux_mem_full (hs.drop (repair hs v (some s) st.anchor 0).1)
    (s - (repair hs v (some s) st.anchor 0).1) (repair hs v (some s) st.anchor 0).1
    0 v _ ?_ ?_ ?_ ?_ ?_ ?_ rfl rfl
  · rw [List.length_drop]
    omega
  · rw [hgd]
    show sumRange hs (repair hs v (some s) st.anchor 0).1 s + hAt hs s ≤ v
    omega
  · rw [hgd]
    omega
  · show s = (repair hs v (some s) st.anchor 0).1 + (s - (repair hs v (some s) st.anchor 0).1)
    omega
  · show sumRange hs (repair hs v (some s) st.anchor 0).1 s = 0 + _
    rw [Nat.zero_add]
    rfl
  · rw [hgd]

theorem render_shows_selected_tall (hs : List Nat) (v : Nat) (st : ListState)
    (hskip : st.skip = 0) (s : Nat) (hsel : st.selected = some s) (hlen : s < hs.length)
    (h1 : v < hAt hs s) (h2 : 1 ≤ v) :
    ∃ e ∈ (render hs v st).1,
      e.index = s ∧ e.top_offset = 0 ∧ e.clipped_top = false
      ∧ e.visible_rows = v ∧ e.clipped_bottom = true := by
  have hrt : repair hs v (some s) st.anchor 0 = (s, 0) := repair_tall hs v s st.anchor h1
  have hanch : (repairSt hs v st).anchor = s := by
    simp [repairSt, hsel, hskip, hrt]
  have hsk2 : (repairSt hs v st).skip = 0 := by
    simp [repairSt, hsel, hskip, hrt]
  have hg : (render hs v st).1 = packAux (hs.drop s) s 0 0 v := by
    show packAux (hs.drop (repairSt hs v st).anchor) (repairSt hs v st).anchor
        (repairSt hs v st).skip 0 v = _
    rw [hanch, hsk2]
  rw [hg, drop_eq_hAt_cons hs s hlen, packAux_cons, if_neg (by omega)]
  refine ⟨_, List.mem_cons_self _ _, rfl, rfl, by simp, ?_, ?_⟩
  · show min v (hAt hs s - 0) = v
    omega
  · show decide (v < hAt hs s - 0) = true
    exact decide_eq_true (by omega)

/-- C2 (amended): after any navigation call followed by one `render`, starting
from a state whose selection is in range and whose `anchor_skip` is 0 (the
invariant of every reachable state), the selected item `s` is fully contained
in the viewport — its geometry entry exists with `clipped_top = false`,
`clipped_bottom = false` and its full height visible — whenever
`1 ≤ height(s) ≤ viewport_height`; and whenever `height(s) > viewport_height ≥ 1`
the selected item's entry sits at the viewport top (`top_offset = 0`,
`clipped_top = false`) filling the whole viewport with `clipped_bottom = true`. -/
theorem C2_amended (hs : List Nat) (v : Nat) (st : ListState) (c : NavCall)
    (hskip : st.skip = 0) (hok : selOk hs.length st = true)
    (s : Nat) (hsel : (applyNav hs.length c st).selected = some s) :
    (1 ≤ hAt hs s → hAt hs s ≤ v →
      ∃ e ∈ (render hs v (applyNav hs.length c st)).1,
        e.index = s ∧ e.clipped_top = false ∧ e.clipped_bottom = false
        ∧ e.visible_rows = hAt hs s)
    ∧ (v < hAt hs s → 1 ≤ v →
      ∃ e ∈ (render hs v (applyNav hs.length c st)).1,
        e.index = s ∧ e.top_offset = 0 ∧ e.clipped_top = false
        ∧ e.visible_rows = v ∧ e.clipped_bottom = true) := by
  have hok2 := selOk_applyNav hs.length c st hok
  have hlen : s < hs.length := selOk_of_some hs.length _ s hok2 hsel
  have hsk : (applyNav hs.length c st).skip = 0 := by
    rw [(applyNav_anchor hs.length c st).2, hskip]
  exact ⟨fun h1 h2 => render_shows_selected_fit hs v _ hsk s hsel hlen h1 h2,
         fun h1 h2 => render_shows_selected_tall hs v _ hsk s hsel hlen h1 h2⟩

theorem C2_amended_witness :
    ∃ e ∈ (render [2, 2, 2, 2, 2] 4
        (applyNav 5 NavCall.fwd { selected := some 2, anchor := 0, skip := 0 })).1,
      e.index = 3 ∧ e.clipped_top = false ∧ e.clipped_bottom = false
      ∧ e.visible_rows = hAt [2, 2, 2, 2, 2] 3 :=
  (C2_amended [2, 2, 2, 2, 2] 4 { selected := some 2, anchor := 0, skip := 0 }
      NavCall.fwd rfl (by decide) 3 (by decide)).1 (by decide) (by decide)

/-- C2 as stated fails on the code model: with heights `[4, 0]` and viewport 4,
after `next()` the selection is item 1 whose height 0 is ≤ 4, yet the geometry
contains no entry for item 1 at all (packing stops when the viewport is
exactly filled), so "its geometry entry has `clipped_top = false` and
`clipped_bottom = false`" does not hold; and with a single item of height 9
and viewport 0 the geometry is empty, so the taller-than-viewport clause has
no top-aligned entry either. -/
theorem C2_counterexample :
    (applyNav 2 NavCall.fwd { selected := some 0, anchor := 0, skip := 0 }).selected = some 1
    ∧ hAt [4, 0] 1 ≤ 4
    ∧ (∀ e ∈ (render [4, 0] 4
        (applyNav 2 NavCall.fwd { selected := some 0, anchor := 0, skip := 0 })).1,
        e.index ≠ 1)
    ∧ 0 < hAt [9] 0
    ∧ (render [9] 0 { selected := some 0, anchor := 0, skip := 0 }).1 = [] := by
  decide

/-- C4 (amended): anchor repair is minimal-scroll, with "fully visible" in
place of the claimed "at least partially visible": `selected = none` leaves
the anchor unchanged; `selected` before the anchor makes the anchor exactly
`(selected, 0)`; a selected item already fully visible by forward packing from
the current anchor leaves the anchor in place; otherwise the anchor advances
to the smallest index from which the selected item is fully visible (no
smaller index fits), top-aligning at `selected` itself when the item is taller
than the viewport.  The concrete scenario holds: for 5 items of height 2 and
viewport height 4, three `next()` calls from selection 0 yield selection 3,
and `render` advances the anchor to item 2 and shows items 2 and 3 at rows
0–1 and 2–3. -/
theorem C4_amended (hs : List Nat) (v : Nat) (s a k : Nat) :
    repair hs v none a k = (a, k)
    ∧ (s < a → repair hs v (some s) a k = (s, 0))
    ∧ (a ≤ s → sumRange hs a (s + 1) ≤ v → repair hs v (some s) a 0 = (a, 0))
    ∧ (a ≤ s → ¬ sumRange hs a (s + 1) ≤ v →
        repair hs v (some s) a 0 = (minAnchorFor hs v s, 0)
        ∧ a ≤ minAnchorFor hs v s
        ∧ (∀ b, b < minAnchorFor hs v s → ¬ sumRange hs b (s + 1) ≤ v)
        ∧ (hAt hs s ≤ v → sumRange hs (minAnchorFor hs v s) (s + 1) ≤ v))
    ∧ (applyMoves 5 [Move.fwd, Move.fwd, Move.fwd]
        { selected := some 0, anchor := 0, skip := 0 }
        = { selected := some 3, anchor := 0, skip := 0 }
      ∧ render [2, 2, 2, 2, 2] 4 { selected := some 3, anchor := 0, skip := 0 }
        = ([{ index := 2, top_offset := 0, visible_rows := 2,
              clipped_top := false, clipped_bottom := false },
            { index := 3, top_offset := 2, visible_rows := 2,
              clipped_top := false, clipped_bottom := false }],
           { selected := some 3, anchor := 2, skip := 0 })) := by
  refine ⟨rfl, ?_, ?_, ?_, by decide⟩
  · intro h
    rw [repair_some, if_pos h]
  · intro h1 h2
    rw [repair_some, if_neg (by omega),
      if_pos (⟨Or.inr rfl, by omega⟩ :
        (s ≠ a ∨ 0 = 0) ∧ sumRange hs a (s + 1) ≤ v + 0)]
  · intro h1 h2
    have he : repair hs v (some s) a 0 = (minAnchorFor hs v s, 0) := by
      rw [repair_some, if_neg (by omega),
        if_neg (fun hc : (s ≠ a ∨ 0 = 0) ∧ sumRange hs a (s + 1) ≤ v + 0 =>
          h2 (by have := hc.2; omega))]
    refine ⟨he, ?_, minAnchorFor_min hs v s, minAnchorFor_fits_of_sel_fits hs v s⟩
    rcases minAnchorFor_fits_or_eq hs v s with hf | hf
    · by_contra hlt
      have hra : minAnchorFor hs v s ≤ a := by omega
      have := sumRange_le_of_le hs (minAnchorFor hs v s) a (s + 1) hra
      omega
    · omega

theorem C4_amended_witness :
    repair [2, 3] 4 (some 1) 0 0 = (minAnchorFor [2, 3] 4 1, 0)
    ∧ 0 ≤ minAnchorFor [2, 3] 4 1 :=
  ⟨((C4_amended [2, 3] 4 1 0 0).2.2.2.1 (by decide) (by decide)).1,
   ((C4_amended [2, 3] 4 1 0 0).2.2.2.1 (by decide) (by decide)).2.1⟩

/-- C4 as stated fails on the code model: with heights `[2, 3]`, viewport 4,
anchor 0 and selection 1, the selected item is already at least partially
visible at the viewport bottom under forward packing from anchor 0 (the 2 rows
before it are fewer than the 4 viewport rows and it has positive height), so
the smallest anchor advance achieving partial visibility is no advance at
all — yet repair advances the anchor to item 1 (it scrolls until the selected
item is fully visible, not merely partially visible). -/
theorem C4_counterexample :
    sumRange [2, 3] 0 1 < 4
    ∧ 0 < hAt [2, 3] 1
    ∧ repair [2, 3] 4 (some 1) 0 0 = (1, 0) := by
  decide

/-- From src/src/traits.rs `Listable`: an item reports its height; the
optional `highlight` and `truncate_top` transforms default to returning the
item unchanged. -/
structure Listable (α : Type) where
  height : α → Nat
  highlight : α → α := fun x => x
  truncate_top : α → Nat → α := fun x _ => x

/-- Modelled from the spec (§4.3 phase 2): the per-index heights used for
packing; the selected item, if present, is transformed via `highlight()`
before its height is measured.  `off` is the index of the first item of the
list being traversed. -/
def effHeights {α : Type} (L : Listable α) (sel : Option Nat) : Nat → List α → List Nat
  | _, [] => []
  | off, x :: xs =>
    (if sel = some off then L.height (L.highlight x) else L.height x)
      :: effHeights L sel (off + 1) xs

/-- Modelled from the spec (§4.3, §4.4): a layout pass over actual items,
measuring heights through the `Listable` capability with the selected item
highlighted first. -/
def renderItems {α : Type} (L : Listable α) (items : List α) (v : Nat) (st : ListState) :
    List Entry × ListState :=
  render (effHeights L st.selected 0 items) v st

theorem effHeights_getD {α : Type} (L : Listable α) (sel : Option Nat) :
    ∀ (items : List α) (off j : Nat) (x : α), items[j]? = some x →
      (effHeights L sel off items).getD j 0 =
        (if sel = some (off + j) then L.height (L.highlight x) else L.height x) := by
  intro items
  induction items with
  | nil => intro off j x hx; simp at hx
  | cons y ys ih =>
    intro off j x hx
    match j with
    | 0 =>
      rw [List.getElem?_cons_zero] at hx
      have hxy : y = x := by injection hx
      subst hxy
      show ((if sel = some off then L.height (L.highlight y) else L.height y)
          :: effHeights L sel (off + 1) ys).getD 0 0 = _
      rw [List.getD_cons_zero, Nat.add_zero]
    | j' + 1 =>
      rw [List.getElem?_cons_succ] at hx
      show ((if sel = some off then L.height (L.highlight y) else L.height y)
          :: effHeights L sel (off + 1) ys).getD (j' + 1) 0 = _
      rw [List.getD_cons_succ, ih (off + 1) j' x hx]
      have harith : off + 1 + j' = off + (j' + 1) := by omega
      rw [harith]

/-- From src/examples/demo.rs `MyListItem`: its layout-relevant fields — the
title, content strings and style do not affect layout; `contentLen` stands
for `content.len()`. -/
structure MyListItem where
  contentLen : Nat
  height : Nat
  expand : Bool
deriving Repr, DecidableEq

/-- From src/examples/demo.rs `MyListItem::new`: height starts at 2, not
expanded. -/
def MyListItem.new (contentLen : Nat) : MyListItem :=
  { contentLen := contentLen, height := 2, expand := false }

/-- From src/examples/demo.rs `MyListItem::expand`: marks the item expanded
and sets `height = 3 + content.len()`. -/
def MyListItem.expanded (m : MyListItem) : MyListItem :=
  { m with expand := true, height := 3 + m.contentLen }

/-- From src/examples/demo.rs, `impl Listable for MyListItem`: `height`
returns the stored height; `highlight` restyles (layout-irrelevant here) and
expands the item. -/
def myListable : Listable MyListItem :=
  { height := MyListItem.height, highlight := MyListItem.expanded }

/-- C5: during layout the selected item is transformed via `highlight()`
before its height is measured for packing — the height list used by the
packing pass carries `height (highlight x)` at the selected index — and in
the concrete demo-shaped scenario an item whose height expands from 2 to 5 on
selection is packed at height 5 with the anchor shifting to item 1, keeping
the selected item's top visible (it no longer fits, so it is top-aligned and
clipped at the bottom). -/
theorem C5_highlight_layout :
    (∀ (α : Type) (L : Listable α) (items : List α) (i : Nat) (x : α),
      items[i]? = some x →
      (effHeights L (some i) 0 items).getD i 0 = L.height (L.highlight x))
    ∧ myListable.height (myListable.highlight (MyListItem.new 2)) = 5
    ∧ renderItems myListable
        [MyListItem.new 2, MyListItem.new 2, MyListItem.new 2] 4
        { selected := some 1, anchor := 0, skip := 0 }
      = ([{ index := 1, top_offset := 0, visible_rows := 4,
            clipped_top := false, clipped_bottom := true }],
         { selected := some 1, anchor := 1, skip := 0 }) := by
  refine ⟨?_, by decide, by decide⟩
  intro α L items i x hx
  rw [effHeights_getD L (some i) items 0 i x hx]
  simp

theorem C5_highlight_layout_witness :
    (effHeights myListable (some 0) 0 [MyListItem.new 1]).getD 0 0
      = myListable.height (myListable.highlight (MyListItem.new 1)) :=
  C5_highlight_layout.1 MyListItem myListable [MyListItem.new 1] 0 (MyListItem.new 1)
    (by decide)

/-- C9: the optional `Listable` transforms default to the identity: a
`Listable` instance given only a `height` function has `highlight x = x`, and
lacking the clipped-render capability its `truncate_top x n = x` — the item is
handed unchanged to the backend for its full allotted rectangle even when only
partially visible.  (The spec names this capability
`render_clipped(self, visible_rows, clip_from_top)`; the code offers only top
truncation, `truncate_top(self, usize)`.) -/
theorem C9_default_transforms (α : Type) (h : α → Nat) (x : α) (n : Nat) :
    ({ height := h } : Listable α).highlight x = x
    ∧ ({ height := h } : Listable α).truncate_top x n = x :=
  ⟨rfl, rfl⟩

/-- C10: the height reported through the `Listable` capability is a `usize`,
modelled as `Nat`, hence non-negative by construction for every item of every
item type: the spec's negative-height PreconditionViolation branch is
unreachable from the public interface. -/
theorem C10_height_nonneg (α : Type) (L : Listable α) (x : α) : 0 ≤ L.height x :=
  Nat.zero_le _
